import Mathlib

/-!
Verification of the Markant URL-shortening service (src/main.py, src/database.py).

The embedding mirrors the Python source:
* `BASE62`, `encode_base62`, `generate_short_url` — the code generator
  (src/main.py lines 91, 115–141), with Python's arbitrary-precision ints as `Nat`
  and `hashlib.md5` embedded as an executable MD5 over UTF-8 byte lists;
* `URL`, `DirState`, `insertRow` — the storage table of src/database.py
  (integer autoincrement id, UNIQUE constraints on `original_url` and `short_url`);
* `encode_url`, `decode_url` — the two endpoint bodies (src/main.py lines 144–218),
  with FastAPI's `HTTPException` as an explicit error value.  Both endpoint bodies
  sit inside a `try`/`except Exception` that rewraps ANY exception — including the
  endpoints' own `HTTPException(400/404)` — into `HTTPException(500, str(e))`; the
  embedding reproduces that rewrapping faithfully.
-/

set_option maxRecDepth 100000

namespace Markant

instance {ε α : Type} [DecidableEq ε] [DecidableEq α] : DecidableEq (Except ε α) :=
  fun x y =>
    match x, y with
    | .ok a, .ok b =>
      if h : a = b then .isTrue (by rw [h])
      else .isFalse (by intro hc; cases hc; exact h rfl)
    | .error a, .error b =>
      if h : a = b then .isTrue (by rw [h])
      else .isFalse (by intro hc; cases hc; exact h rfl)
    | .ok _, .error _ => .isFalse (by intro hc; cases hc)
    | .error _, .ok _ => .isFalse (by intro hc; cases hc)

/-! ### Python `string` module constants (src/main.py line 91) -/

/-- `string.digits`. -/
def ascii_digits : String := "0123456789"

/-- `string.ascii_lowercase`. -/
def ascii_lowercase : String := "abcdefghijklmnopqrstuvwxyz"

/-- `string.ascii_uppercase`. -/
def ascii_uppercase : String := "ABCDEFGHIJKLMNOPQRSTUVWXYZ"

/-- `string.ascii_letters` = lowercase then uppercase (CPython definition). -/
def ascii_letters : String := ascii_lowercase ++ ascii_uppercase

/-- `BASE62 = string.digits + string.ascii_letters` (src/main.py line 91). -/
def BASE62 : String := ascii_digits ++ ascii_letters

/-- The alphabet as the spec words it (§4.1): digits, then uppercase A–Z, then
lowercase a–z.  Stated only to compare with the source's `BASE62`. -/
def BASE62_claimed : String := ascii_digits ++ ascii_uppercase ++ ascii_lowercase

/-! ### `encode_base62` (src/main.py lines 115–128)

Python builds the digit list least-significant first and reverses it; the
accumulator below prepends each digit, producing the same (reversed) order
directly.  The `while num:` loop is embedded with explicit fuel; `num + 1`
units of fuel always suffice because `num` shrinks strictly each iteration. -/

/-- One digit character: `BASE62[rem]` for `rem < 62`. -/
def base62Digit (rem : Nat) : Char := BASE62.data.getD rem '0'

/-- The `while num:` loop of `encode_base62`, fuelled. -/
def encodeBase62Core : Nat → Nat → List Char → List Char
  | 0, _, acc => acc
  | fuel + 1, num, acc =>
    if num = 0 then acc
    else encodeBase62Core fuel (num / 62) (base62Digit (num % 62) :: acc)

/-- `encode_base62` as a character list (src/main.py lines 115–128). -/
def encodeBase62List (num : Nat) : List Char :=
  if num = 0 then [base62Digit 0]
  else encodeBase62Core (num + 1) num []

/-- `encode_base62(num)` (src/main.py lines 115–128). -/
def encode_base62 (num : Nat) : String :=
  String.mk (encodeBase62List num)

/-! ### `hashlib.md5` (used at src/main.py line 138)

An executable embedding of RFC 1321 MD5 over byte lists, so that
`int(hashlib.md5(s.encode()).hexdigest(), 16)` becomes `md5Int (strEncode s)`.
All 32-bit machine words are `Nat` values kept below `2 ^ 32` with explicit
`% 2 ^ 32`; bitwise complement on a 32-bit word is xor with `0xffffffff`. -/

/-- `2 ^ 32`, the 32-bit word modulus. -/
def w32 : Nat := 4294967296

/-- The 64 MD5 sine-derived round constants `K[i] = ⌊|sin(i+1)| · 2³²⌋`. -/
def md5K : List Nat := [
  0xd76aa478, 0xe8c7b756, 0x242070db, 0xc1bdceee,
  0xf57c0faf, 0x4787c62a, 0xa8304613, 0xfd469501,
  0x698098d8, 0x8b44f7af, 0xffff5bb1, 0x895cd7be,
  0x6b901122, 0xfd987193, 0xa679438e, 0x49b40821,
  0xf61e2562, 0xc040b340, 0x265e5a51, 0xe9b6c7aa,
  0xd62f105d, 0x02441453, 0xd8a1e681, 0xe7d3fbc8,
  0x21e1cde6, 0xc33707d6, 0xf4d50d87, 0x455a14ed,
  0xa9e3e905, 0xfcefa3f8, 0x676f02d9, 0x8d2a4c8a,
  0xfffa3942, 0x8771f681, 0x6d9d6122, 0xfde5380c,
  0xa4beea44, 0x4bdecfa9, 0xf6bb4b60, 0xbebfbc70,
  0x289b7ec6, 0xeaa127fa, 0xd4ef3085, 0x04881d05,
  0xd9d4d039, 0xe6db99e5, 0x1fa27cf8, 0xc4ac5665,
  0xf4292244, 0x432aff97, 0xab9423a7, 0xfc93a039,
  0x655b59c3, 0x8f0ccc92, 0xffeff47d, 0x85845dd1,
  0x6fa87e4f, 0xfe2ce6e0, 0xa3014314, 0x4e0811a1,
  0xf7537e82, 0xbd3af235, 0x2ad7d2bb, 0xeb86d391]

/-- The 64 MD5 per-round left-rotation amounts. -/
def md5S : List Nat := [
  7, 12, 17, 22, 7, 12, 17, 22, 7, 12, 17, 22, 7, 12, 17, 22,
  5, 9, 14, 20, 5, 9, 14, 20, 5, 9, 14, 20, 5, 9, 14, 20,
  4, 11, 16, 23, 4, 11, 16, 23, 4, 11, 16, 23, 4, 11, 16, 23,
  6, 10, 15, 21, 6, 10, 15, 21, 6, 10, 15, 21, 6, 10, 15, 21]

/-- Left-rotation of a 32-bit word. -/
def rotl32 (x s : Nat) : Nat :=
  (((x <<< s) % w32) ||| (x >>> (32 - s))) % w32

/-- MD5 round function F (rounds 0–15). -/
def md5F (b c d : Nat) : Nat := (b &&& c) ||| ((b ^^^ 0xffffffff) &&& d)

/-- MD5 round function G (rounds 16–31). -/
def md5G (b c d : Nat) : Nat := (d &&& b) ||| ((d ^^^ 0xffffffff) &&& c)

/-- MD5 round function H (rounds 32–47). -/
def md5H (b c d : Nat) : Nat := b ^^^ c ^^^ d

/-- MD5 round function I (rounds 48–63). -/
def md5I (b c d : Nat) : Nat := c ^^^ (b ||| (d ^^^ 0xffffffff))

/-- The MD5 chaining state: the four 32-bit registers A, B, C, D. -/
structure Md5State where
  a : Nat
  b : Nat
  c : Nat
  d : Nat
deriving DecidableEq

/-- MD5 initial state. -/
def md5Init : Md5State := ⟨0x67452301, 0xefcdab89, 0x98badcfe, 0x10325476⟩

/-- One of the 64 MD5 rounds, given the 16 message words `M` of the block. -/
def md5Round (M : List Nat) (st : Md5State) (i : Nat) : Md5State :=
  let fg : Nat × Nat :=
    if i < 16 then (md5F st.b st.c st.d, i)
    else if i < 32 then (md5G st.b st.c st.d, (5 * i + 1) % 16)
    else if i < 48 then (md5H st.b st.c st.d, (3 * i + 5) % 16)
    else (md5I st.b st.c st.d, (7 * i) % 16)
  let f := (fg.1 + st.a + md5K.getD i 0 + M.getD fg.2 0) % w32
  ⟨st.d, (st.b + rotl32 f (md5S.getD i 0)) % w32, st.b, st.c⟩

/-- Group a byte list into little-endian 32-bit words, four bytes per word. -/
def leWords : List Nat → List Nat
  | b0 :: b1 :: b2 :: b3 :: rest =>
    (b0 + 256 * (b1 + 256 * (b2 + 256 * b3))) :: leWords rest
  | _ => []

/-- Compress one 64-byte block into the chaining state. -/
def md5Block (block : List Nat) (st : Md5State) : Md5State :=
  let M := leWords block
  let r := (List.range 64).foldl (md5Round M) st
  ⟨(st.a + r.a) % w32, (st.b + r.b) % w32, (st.c + r.c) % w32, (st.d + r.d) % w32⟩

/-- Fold `md5Block` over successive 64-byte blocks; the fuel (≥ the byte count)
bounds the number of blocks. -/
def md5Blocks : Nat → List Nat → Md5State → Md5State
  | _, [], st => st
  | 0, _, st => st
  | fuel + 1, bytes, st => md5Blocks fuel (bytes.drop 64) (md5Block (bytes.take 64) st)

/-- `count` little-endian bytes of `v`. -/
def leBytes : Nat → Nat → List Nat
  | 0, _ => []
  | k + 1, v => (v % 256) :: leBytes k (v / 256)

/-- MD5 padding: append `0x80`, zero bytes to 56 mod 64, then the 64-bit
little-endian bit length. -/
def md5Pad (msg : List Nat) : List Nat :=
  let len := msg.length
  let zeros := (120 - ((len + 1) % 64)) % 64
  msg ++ [0x80] ++ List.replicate zeros 0 ++ leBytes 8 ((8 * len) % (2 ^ 64))

/-- The 16-byte MD5 digest of a byte list. -/
def md5Digest (msg : List Nat) : List Nat :=
  let padded := md5Pad msg
  let st := md5Blocks padded.length padded md5Init
  leBytes 4 st.a ++ leBytes 4 st.b ++ leBytes 4 st.c ++ leBytes 4 st.d

/-- `int(hashlib.md5(msg).hexdigest(), 16)`: the digest bytes read as one
big-endian unsigned integer (hex digits in digest order). -/
def md5Int (msg : List Nat) : Nat :=
  (md5Digest msg).foldl (fun acc b => 256 * acc + b) 0

/-! ### Python `str.encode()` (UTF-8) -/

/-- UTF-8 encoding of one Unicode code point. -/
def utf8Char (c : Char) : List Nat :=
  let n := c.toNat
  if n < 0x80 then [n]
  else if n < 0x800 then
    [0xc0 ||| (n >>> 6), 0x80 ||| (n &&& 0x3f)]
  else if n < 0x10000 then
    [0xe0 ||| (n >>> 12), 0x80 ||| ((n >>> 6) &&& 0x3f), 0x80 ||| (n &&& 0x3f)]
  else
    [0xf0 ||| (n >>> 18), 0x80 ||| ((n >>> 12) &&& 0x3f),
     0x80 ||| ((n >>> 6) &&& 0x3f), 0x80 ||| (n &&& 0x3f)]

/-- `s.encode()`: the UTF-8 bytes of a string. -/
def strEncode (s : String) : List Nat :=
  s.data.foldr (fun c acc => utf8Char c ++ acc) []

/-! ### `generate_short_url` (src/main.py lines 131–141)

Python's `short_url[:6]` is the first six characters of the Base62 string,
embedded as `List.take 6` on the character list. -/

/-- `generate_short_url(original_url)` (src/main.py lines 131–141). -/
def generate_short_url (original_url : String) : String :=
  let hash_int := md5Int (strEncode original_url)
  String.mk ((encodeBase62List hash_int).take 6)

/-! ### Python string helpers used by `decode_url` -/

/-- Python `s.split('/')` on the character list: always returns a non-empty
list of (possibly empty) segments. -/
def splitOnSlash : List Char → List (List Char)
  | [] => [[]]
  | c :: rest =>
    if c = '/' then [] :: splitOnSlash rest
    else
      match splitOnSlash rest with
      | [] => [[c]]
      | s :: ss => (c :: s) :: ss

/-- Python `s.split('/')[-1]` (src/main.py line 203). -/
def lastSlashSegment (s : String) : String :=
  String.mk ((splitOnSlash s.data).getLastD [])

/-- Python `s.startswith(p)`: the first `len(p)` characters of `s` equal `p`. -/
def str_startswith (s p : String) : Bool :=
  s.data.take p.data.length == p.data

/-! ### Data model (src/database.py lines 21–33 and src/models.py)

`src/models.py` is imported by `src/main.py` but absent from the sources; the
two pydantic request/response models are modelled from the spec. -/

/-- A row of the `urls` table (src/database.py lines 21–33): autoincrement
integer primary key, `original_url` and `short_url` both UNIQUE. -/
structure URL where
  id : Nat
  original_url : String
  short_url : String
deriving DecidableEq

/-- Modelled from the spec: `src/models.py` is missing from the sources; spec §6
gives the encode request / decode response body as a single string field
`original_url`. -/
structure URLModel where
  original_url : String
deriving DecidableEq

/-- Modelled from the spec: `src/models.py` is missing from the sources; spec §6
gives the encode response / decode request body as a single string field
`short_url`. -/
structure ShortURLModel where
  short_url : String
deriving DecidableEq

/-- FastAPI `HTTPException`, as the status code and detail it carries. -/
structure HTTPError where
  status_code : Nat
  detail : String
deriving DecidableEq

/-- The storage-layer exception for a violated UNIQUE constraint
(spec §6 `UniqueConstraintViolation`). -/
inductive DBError where
  | uniqueViolation
deriving DecidableEq

/-- `str(e)` for the storage exception; no theorem depends on this text. -/
def dbErrStr : DBError → String
  | .uniqueViolation => "UNIQUE constraint failed: urls"

/-- `str(e)` for a caught `HTTPException`; no theorem depends on this text. -/
def exceptionStr (e : HTTPError) : String :=
  toString e.status_code ++ ": " ++ e.detail

/-- The persistent store: the `urls` table plus the autoincrement counter. -/
structure DirState where
  rows : List URL
  nextId : Nat
deriving DecidableEq

/-- The empty store (SQLite autoincrement ids start at 1). -/
def dirEmpty : DirState := ⟨[], 1⟩

/-- `db.add` + `db.commit` (src/main.py lines 169–171): the INSERT succeeds and
appends the row iff neither UNIQUE constraint of src/database.py is violated. -/
def insertRow (db : DirState) (u c : String) : Except DBError DirState :=
  if db.rows.any (fun r => r.original_url == u) ||
      db.rows.any (fun r => r.short_url == c) then
    .error .uniqueViolation
  else
    .ok ⟨db.rows ++ [⟨db.nextId, u, c⟩], db.nextId + 1⟩

/-! ### The endpoints (src/main.py lines 144–218) -/

/-- The fixed short-URL base (src/main.py lines 163, 174, 193). -/
def short_est : String := "http://short.est/"

/-- `encode_url` (src/main.py lines 145–177) under the spec §5 interleaving:
the SELECT at line 156 observes the storage snapshot `dbCheck`, while the
INSERT/commit at lines 170–171 executes against `dbCommit`, into which a
concurrent writer may have inserted between the two.  The sequential endpoint
is the diagonal `dbCheck = dbCommit`.  A failed commit is rolled back (the
store stays `dbCommit`) and the blanket `except Exception` at lines 175–177
rewraps the storage exception as `HTTPException(500, str(e))`. -/
def encode_url_race (url : URLModel) (dbCheck dbCommit : DirState) :
    Except HTTPError ShortURLModel × DirState :=
  match dbCheck.rows.find? (fun r => r.original_url == url.original_url) with
  | some existing_url =>
    (.ok ⟨short_est ++ existing_url.short_url⟩, dbCommit)
  | none =>
    let short_url := generate_short_url url.original_url
    match insertRow dbCommit url.original_url short_url with
    | .ok db2 => (.ok ⟨short_est ++ short_url⟩, db2)
    | .error e => (.error ⟨500, dbErrStr e⟩, dbCommit)

/-- `encode_url` (src/main.py lines 145–177) with a single consistent storage
state: check and insert both see `db`. -/
def encode_url (url : URLModel) (db : DirState) :
    Except HTTPError ShortURLModel × DirState :=
  encode_url_race url db db

/-- `decode_url` (src/main.py lines 181–218).  The body raises
`HTTPException(400)` on a bad prefix and `HTTPException(404)` on a missed
lookup — but both raises happen inside the `try`, and the blanket
`except Exception` at lines 216–218 catches them (FastAPI `HTTPException`
subclasses `Exception`) and re-raises `HTTPException(500, str(e))`.  The
session is only read (one SELECT), so the state passes through unchanged. -/
def decode_url (short_url : ShortURLModel) (db : DirState) :
    Except HTTPError URLModel × DirState :=
  let tryBody : Except HTTPError URLModel :=
    if str_startswith short_url.short_url short_est = false then
      .error ⟨400,
        "Invalid short URL format. The URL must start with http://short.est/."⟩
    else
      let url_id_str := lastSlashSegment short_url.short_url
      match db.rows.find? (fun r => r.short_url == url_id_str) with
      | none => .error ⟨404, "Short URL not found"⟩
      | some db_url => .ok ⟨db_url.original_url⟩
  match tryBody with
  | .ok v => (.ok v, db)
  | .error e => (.error ⟨500, exceptionStr e⟩, db)

/-- The HTTP status of a response, `none` on success. -/
def resultStatus {α : Type} : Except HTTPError α → Option Nat
  | .error e => some e.status_code
  | .ok _ => none

/-! ### Storage well-formedness

The invariants the schema enforces (both UNIQUE constraints), plus the shape of
stored codes (non-empty, no slash), which every code produced by
`generate_short_url` satisfies. -/

/-- A storable short code: non-empty and slash-free. -/
def goodCode (c : String) : Prop := c ≠ "" ∧ '/' ∉ c.data

/-- Well-formed store: all codes storable, both uniqueness constraints hold. -/
def WF (db : DirState) : Prop :=
  (∀ r ∈ db.rows, goodCode r.short_url) ∧
  (db.rows.map URL.original_url).Nodup ∧
  (db.rows.map URL.short_url).Nodup

instance : DecidablePred goodCode := fun c => by
  unfold goodCode; infer_instance

instance : DecidablePred WF := fun db => by
  unfold WF; infer_instance

/-! ## Lemmas about the code generator -/

/-- Every digit character lies in the alphabet (the default `'0'` does too). -/
theorem base62Digit_mem (r : Nat) : base62Digit r ∈ BASE62.data := by
  unfold base62Digit List.getD
  rcases h : BASE62.data.get? r with _ | c
  · simpa using (by decide : '0' ∈ BASE62.data)
  · simpa using List.get?_mem h

/-- The fuelled loop only prepends alphabet characters to the accumulator. -/
theorem encodeBase62Core_shape (fuel : Nat) :
    ∀ num acc, ∃ l, encodeBase62Core fuel num acc = l ++ acc ∧
      ∀ c ∈ l, c ∈ BASE62.data := by
  induction fuel with
  | zero => intro num acc; exact ⟨[], rfl, by simp⟩
  | succ fuel ih =>
    intro num acc
    by_cases h : num = 0
    · exact ⟨[], by simp [encodeBase62Core, h], by simp⟩
    · obtain ⟨l, hl, hmem⟩ := ih (num / 62) (base62Digit (num % 62) :: acc)
      refine ⟨l ++ [base62Digit (num % 62)], ?_, ?_⟩
      · simpa [encodeBase62Core, h] using hl
      · intro c hc
        rcases List.mem_append.mp hc with hc | hc
        · exact hmem c hc
        · simpa using (List.mem_singleton.mp hc ▸ base62Digit_mem (num % 62))

/-- `encode_base62` never returns the empty digit string. -/
theorem encodeBase62List_ne_nil (num : Nat) : encodeBase62List num ≠ [] := by
  unfold encodeBase62List
  by_cases h : num = 0
  · simp [h]
  · obtain ⟨l, hl, -⟩ :=
      encodeBase62Core_shape num (num / 62) [base62Digit (num % 62)]
    simp only [h, if_false]
    show encodeBase62Core (num + 1) num [] ≠ []
    rw [show encodeBase62Core (num + 1) num [] =
          encodeBase62Core num (num / 62) [base62Digit (num % 62)] from by
        simp [encodeBase62Core, h], hl]
    simp

/-- Every character `encode_base62` emits lies in the alphabet. -/
theorem encodeBase62List_mem (num : Nat) :
    ∀ c ∈ encodeBase62List num, c ∈ BASE62.data := by
  unfold encodeBase62List
  by_cases h : num = 0
  · simpa [h] using base62Digit_mem 0
  · obtain ⟨l, hl, hmem⟩ := encodeBase62Core_shape (num + 1) num []
    simp only [h, if_false, hl]
    intro c hc
    exact hmem c (by simpa using hc)

/-- A truncated non-empty list stays non-empty. -/
theorem take_six_ne_nil {l : List Char} (h : l ≠ []) : l.take 6 ≠ [] := by
  cases l with
  | nil => exact absurd rfl h
  | cons a t => simp [List.take]

/-- Generated short codes are storable: non-empty and slash-free. -/
theorem generate_short_url_good (s : String) : goodCode (generate_short_url s) := by
  constructor
  · intro h
    have : (encodeBase62List (md5Int (strEncode s))).take 6 = [] :=
      congrArg String.data h
    exact take_six_ne_nil (encodeBase62List_ne_nil _) this
  · intro h
    have hmem : '/' ∈ encodeBase62List (md5Int (strEncode s)) :=
      List.mem_of_mem_take h
    have : '/' ∈ BASE62.data := encodeBase62List_mem _ _ hmem
    exact absurd this (by decide)

/-! ## Lemmas about `split` and `startswith` -/

/-- Python `split` never returns an empty segment list. -/
theorem splitOnSlash_ne_nil (l : List Char) : splitOnSlash l ≠ [] := by
  cases l with
  | nil => simp [splitOnSlash]
  | cons c rest =>
    by_cases h : c = '/'
    · simp [splitOnSlash, h]
    · simp only [splitOnSlash, h, if_false]
      rcases hs : splitOnSlash rest with _ | ⟨s, ss⟩ <;> simp

/-- A slash-free string splits into the single segment equal to itself. -/
theorem splitOnSlash_no_slash :
    ∀ l : List Char, '/' ∉ l → splitOnSlash l = [l] := by
  intro l
  induction l with
  | nil => intro _; rfl
  | cons c rest ih =>
    intro h
    have hc : ¬c = '/' := fun hc => h (by simp [hc])
    have hrest : '/' ∉ rest := fun hr => h (List.mem_cons_of_mem _ hr)
    simp [splitOnSlash, fun hc2 => hc (hc2 : c = '/'), ih hrest]

/-- A string containing a slash splits into at least two segments. -/
theorem splitOnSlash_two_le :
    ∀ l : List Char, '/' ∈ l → 2 ≤ (splitOnSlash l).length := by
  intro l
  induction l with
  | nil => intro h; cases h
  | cons c rest ih =>
    intro h
    by_cases hc : c = '/'
    · have h1 : 1 ≤ (splitOnSlash rest).length :=
        List.length_pos.mpr (splitOnSlash_ne_nil rest)
      simp only [splitOnSlash, hc, if_true, List.length_cons]
      omega
    · have hrest : '/' ∈ rest := by
        rcases List.mem_cons.mp h with h | h
        · exact absurd h.symm hc
        · exact h
      have h2 := ih hrest
      simp only [splitOnSlash, hc, if_false]
      rcases hs : splitOnSlash rest with _ | ⟨s, ss⟩
      · exact absurd hs (splitOnSlash_ne_nil rest)
      · simpa [hs] using h2

/-- `getLastD` of a cons ignores the head when the tail is non-empty. -/
theorem getLastD_cons_irrel {α : Type} (a d : α) {l : List α} (h : l ≠ []) :
    (a :: l).getLastD d = l.getLastD d := by
  cases l with
  | nil => exact absurd rfl h
  | cons b t => rfl

/-- The last `split('/')` segment of `prefixChars ++ '/' :: l` is `l`, for
slash-free `l`. -/
theorem splitOnSlash_getLastD :
    ∀ (xs l : List Char), '/' ∉ l →
      (splitOnSlash (xs ++ '/' :: l)).getLastD [] = l := by
  intro xs
  induction xs with
  | nil =>
    intro l hl
    simp [splitOnSlash, splitOnSlash_no_slash l hl]
  | cons x xs ih =>
    intro l hl
    by_cases hx : x = '/'
    · have : splitOnSlash ((x :: xs) ++ '/' :: l) =
          [] :: splitOnSlash (xs ++ '/' :: l) := by
        simp [splitOnSlash, hx]
      rw [this, getLastD_cons_irrel _ _ (splitOnSlash_ne_nil _), ih l hl]
    · have hmem : '/' ∈ xs ++ '/' :: l := by simp
      rcases hs : splitOnSlash (xs ++ '/' :: l) with _ | ⟨s, ss⟩
      · exact absurd hs (splitOnSlash_ne_nil _)
      · have hss : ss ≠ [] := by
          have := splitOnSlash_two_le _ hmem
          rw [hs] at this
          simp only [List.length_cons] at this
          intro hnil
          rw [hnil] at this
          simp at this
        have hstep : splitOnSlash ((x :: xs) ++ '/' :: l) = (x :: s) :: ss := by
          simp [splitOnSlash, hx, hs]
        rw [hstep, getLastD_cons_irrel _ _ hss]
        have := ih l hl
        rw [hs, getLastD_cons_irrel _ _ hss] at this
        exact this

/-- Extracting the code segment from a well-formed short URL. -/
theorem lastSlashSegment_append (c : String) (hc : '/' ∉ c.data) :
    lastSlashSegment (short_est ++ c) = c := by
  unfold lastSlashSegment
  rw [String.data_append]
  have hpre : short_est.data = "http://short.est".data ++ ['/'] := by decide
  rw [hpre, List.append_assoc]
  rw [show (['/'] ++ c.data : List Char) = '/' :: c.data from rfl]
  rw [splitOnSlash_getLastD _ _ hc]

/-- Anything of the form `short_est ++ c` passes the prefix check. -/
theorem str_startswith_append (c : String) :
    str_startswith (short_est ++ c) short_est = true := by
  unfold str_startswith
  rw [String.data_append, List.take_left]
  exact beq_self_eq_true _

/-! ## Lemmas about `find?` and `filter` under the uniqueness constraints -/

/-- A search that misses the left part continues in the right part. -/
theorem find?_append_of_none {α : Type} {p : α → Bool} {l₁ : List α}
    (l₂ : List α) (h : l₁.find? p = none) :
    (l₁ ++ l₂).find? p = l₂.find? p := by
  induction l₁ with
  | nil => rfl
  | cons a t ih =>
    have ha : ¬p a = true := by
      intro hpa
      rw [List.find?_cons_of_pos t hpa] at h
      cases h
    have ht : t.find? p = none := by
      rwa [List.find?_cons_of_neg t ha] at h
    rw [List.cons_append, List.find?_cons_of_neg _ ha, ih ht]

/-- When `f` is duplicate-free on `l`, searching for the key of a member finds
exactly that member. -/
theorem find?_key_of_nodup {α : Type} {β : Type} [BEq β] [LawfulBEq β]
    (f : α → β) :
    ∀ (l : List α) (a : α), (l.map f).Nodup → a ∈ l →
      l.find? (fun x => f x == f a) = some a := by
  intro l
  induction l with
  | nil => intro a _ ha; cases ha
  | cons b t ih =>
    intro a hnd ha
    have hnd' : (∀ x ∈ t, ¬f x = f b) ∧ (t.map f).Nodup := by simpa using hnd
    rcases List.mem_cons.mp ha with rfl | hat
    · exact List.find?_cons_of_pos t (beq_self_eq_true _)
    · have hb : ¬(f b == f a) = true := fun hba =>
        hnd'.1 a hat (eq_of_beq hba).symm
      rw [List.find?_cons_of_neg t hb]
      exact ih a hnd'.2 hat

/-- When `f` is duplicate-free on `l`, a member is the unique row filtering to
its own key. -/
theorem filter_key_of_nodup {α : Type} {β : Type} [BEq β] [LawfulBEq β]
    (f : α → β) :
    ∀ (l : List α) (a : α), (l.map f).Nodup → a ∈ l →
      (l.filter (fun x => f x == f a)).length = 1 := by
  intro l
  induction l with
  | nil => intro a _ ha; cases ha
  | cons b t ih =>
    intro a hnd ha
    have hnd' : (∀ x ∈ t, ¬f x = f b) ∧ (t.map f).Nodup := by simpa using hnd
    rcases List.mem_cons.mp ha with rfl | hat
    · have ht : t.filter (fun x => f x == f a) = [] := by
        rw [List.filter_eq_nil_iff]
        intro x hx hbx
        exact hnd'.1 x hx (eq_of_beq hbx)
      simp [List.filter_cons, ht]
    · have hb : ¬(f b == f a) = true := fun hba =>
        hnd'.1 a hat (eq_of_beq hba).symm
      simpa [List.filter_cons, hb] using ih a hnd'.2 hat

/-! ## Unfolding lemmas for the encode endpoint -/

/-- Encode when the original URL is already stored: the hit branch returns the
stored code over the commit-time state. -/
theorem encode_url_race_hit (url : URLModel) (dbC dbW : DirState) (r : URL)
    (h : dbC.rows.find? (fun r => r.original_url == url.original_url) = some r) :
    encode_url_race url dbC dbW = (.ok ⟨short_est ++ r.short_url⟩, dbW) := by
  unfold encode_url_race
  rw [h]

/-- Encode on a miss whose insert succeeds. -/
theorem encode_url_race_miss_ok (url : URLModel) (dbC dbW db2 : DirState)
    (h : dbC.rows.find? (fun r => r.original_url == url.original_url) = none)
    (hins : insertRow dbW url.original_url (generate_short_url url.original_url) =
      .ok db2) :
    encode_url_race url dbC dbW =
      (.ok ⟨short_est ++ generate_short_url url.original_url⟩, db2) := by
  unfold encode_url_race
  rw [h]
  dsimp only
  rw [hins]

/-- Encode on a miss whose insert is rejected by a UNIQUE constraint: the
blanket handler surfaces HTTP 500 and the store stays the commit-time state. -/
theorem encode_url_race_miss_err (url : URLModel) (dbC dbW : DirState)
    (e : DBError)
    (h : dbC.rows.find? (fun r => r.original_url == url.original_url) = none)
    (hins : insertRow dbW url.original_url (generate_short_url url.original_url) =
      .error e) :
    encode_url_race url dbC dbW = (.error ⟨500, dbErrStr e⟩, dbW) := by
  unfold encode_url_race
  rw [h]
  dsimp only
  rw [hins]

/-- What a successful insert did: both constraint checks passed and the row was
appended with the next id. -/
theorem insertRow_ok (db : DirState) (u c : String) (db2 : DirState)
    (h : insertRow db u c = .ok db2) :
    db.rows.any (fun r => r.original_url == u) = false ∧
    db.rows.any (fun r => r.short_url == c) = false ∧
    db2 = ⟨db.rows ++ [⟨db.nextId, u, c⟩], db.nextId + 1⟩ := by
  unfold insertRow at h
  split at h
  · cases h
  · next hcond =>
    simp only [Bool.or_eq_true, not_or, Bool.not_eq_true] at hcond
    refine ⟨hcond.1, hcond.2, ?_⟩
    injection h with h2
    exact h2.symm

/-! ## The claims -/

/-- Claim C3, counterexample: the spec says the 62-symbol alphabet is digits,
then uppercase, then lowercase, with digit value 10 mapping to `'A'` and 36 to
`'a'`.  In the source `BASE62 = string.digits + string.ascii_letters`, and
CPython's `ascii_letters` is lowercase-then-uppercase, so value 10 maps to
`'a'`: the claimed alphabet differs from the source's at explicit index 10. -/
theorem c3_alphabet_counterexample :
    BASE62 ≠ BASE62_claimed ∧
    BASE62.data.getD 10 '0' = 'a' ∧
    BASE62_claimed.data.getD 10 '0' = 'A' ∧
    encode_base62 10 ≠ "A" ∧ encode_base62 36 ≠ "a" := by
  decide

/-- Claim C3, amended: the generator's 62-symbol alphabet is the concatenation
of digits 0–9, then LOWERCASE a–z, then UPPERCASE A–Z, so base-62 digit value 0
maps to `'0'`, value 10 maps to `'a'`, and value 36 maps to `'A'`. -/
theorem c3_alphabet_amended :
    BASE62 = ascii_digits ++ ascii_lowercase ++ ascii_uppercase ∧
    BASE62.length = 62 ∧
    encode_base62 0 = "0" ∧ encode_base62 10 = "a" ∧ encode_base62 36 = "A" := by
  decide

/-- Claim C4: the spec and the repository's own test `test_encode_url` state
that `generate_short_url("https://www.markant.com/en/")` is `"5FYwyk"`.
Evaluating the embedded generator (MD5, base-62, truncate to 6) at that exact
input yields `"23mSFs"` instead; `"5FYwyk"` is what the generator returns for
the same URL WITHOUT its trailing slash, so the test pins the output of an
earlier slash-normalising version of the code. -/
theorem c4_markant_scenario :
    generate_short_url "https://www.markant.com/en/" = "23mSFs" ∧
    generate_short_url "https://www.markant.com/en/" ≠ "5FYwyk" ∧
    generate_short_url "https://www.markant.com/en" = "5FYwyk" := by
  decide

/-- Claim C6: the spec says a decode input without the fixed prefix fails with
`InvalidFormatError` surfaced as HTTP 400.  In the source the
`HTTPException(400)` is raised inside the `try`, and the blanket
`except Exception` rewraps it, so the caller receives HTTP 500 for every
prefixless input — contradicting the repository's own
`test_decode_invalid_format_url`, which asserts 400. -/
theorem c6_bad_prefix_surfaces_500 (x : String) (db : DirState)
    (h : str_startswith x short_est = false) :
    resultStatus (decode_url ⟨x⟩ db).1 = some 500 := by
  simp [decode_url, h, resultStatus]

/-- Witness for C6 at the test suite's own input. -/
theorem c6_witness :
    str_startswith "http://invalid.url/abc123" short_est = false ∧
    resultStatus (decode_url ⟨"http://invalid.url/abc123"⟩ dirEmpty).1 = some 500 :=
  ⟨by decide,
    c6_bad_prefix_surfaces_500 "http://invalid.url/abc123" dirEmpty (by decide)⟩

/-- Claim C7: the spec says decoding `prefix + c` for an unknown code `c` fails
with `NotFoundError` surfaced as HTTP 404.  In the source the
`HTTPException(404)` is raised inside the `try` and the blanket
`except Exception` rewraps it, so the caller receives HTTP 500 for every
unknown code — contradicting the repository's own
`test_decode_nonexistent_url`, which asserts 404. -/
theorem c7_unknown_code_surfaces_500 (c : String) (db : DirState)
    (hc : '/' ∉ c.data)
    (h : db.rows.find? (fun r => r.short_url == c) = none) :
    resultStatus (decode_url ⟨short_est ++ c⟩ db).1 = some 500 := by
  simp [decode_url, str_startswith_append, lastSlashSegment_append c hc, h,
    resultStatus]

/-- Witness for C7 at the test suite's own input. -/
theorem c7_witness :
    '/' ∉ ("nonexistent" : String).data ∧
    dirEmpty.rows.find? (fun r => r.short_url == "nonexistent") = none ∧
    resultStatus (decode_url ⟨short_est ++ "nonexistent"⟩ dirEmpty).1 = some 500 :=
  ⟨by decide, by decide,
    c7_unknown_code_surfaces_500 "nonexistent" dirEmpty (by decide) (by decide)⟩

/-- Claim C9: decode never mutates the store — for every input and storage
state, the state after `decode_url` (success or failure) equals the state
before: the endpoint body only executes one SELECT. -/
theorem c9_decode_pure (s : ShortURLModel) (db : DirState) :
    (decode_url s db).2 = db := by
  unfold decode_url
  dsimp only
  split <;> rfl

/-- Claim C10: for every input string (the empty string included)
`generate_short_url` returns `encode_base62` of the MD5 integer truncated to
its first six characters: a non-empty string of length at most 6 drawn from the
base-62 alphabet.  Truncation never pads: the truncated length is the minimum
of 6 and the full length, and a representation shorter than six characters is
returned whole. -/
theorem c10_generator_shape :
    (∀ s : String,
      generate_short_url s =
        String.mk ((encodeBase62List (md5Int (strEncode s))).take 6) ∧
      generate_short_url s ≠ "" ∧
      (generate_short_url s).length ≤ 6 ∧
      ∀ ch ∈ (generate_short_url s).data, ch ∈ BASE62.data) ∧
    (∀ num : Nat,
      ((encodeBase62List num).take 6).length = min 6 (encodeBase62List num).length) ∧
    (∀ num : Nat, (encodeBase62List num).length < 6 →
      (encodeBase62List num).take 6 = encodeBase62List num) := by
  refine ⟨fun s => ⟨rfl, (generate_short_url_good s).1, ?_, ?_⟩,
    fun num => List.length_take 6 _, fun num h => List.take_of_length_le h.le⟩
  · show (String.mk ((encodeBase62List (md5Int (strEncode s))).take 6)).length ≤ 6
    simp [String.length, List.length_take]
  · intro ch hch
    exact encodeBase62List_mem _ _ (List.mem_of_mem_take hch)

/-- Witness for C10: a five-character base-62 representation is returned whole
by the truncation, and the generator output on the empty string is non-empty. -/
theorem c10_witness :
    (encodeBase62List 5).length < 6 ∧
    (encodeBase62List 5).take 6 = encodeBase62List 5 ∧
    generate_short_url "" ≠ "" :=
  ⟨by decide, c10_generator_shape.2.2 5 (by decide),
    (c10_generator_shape.1 "").2.1⟩

/-- Claim C1: round-trip.  Over any well-formed store, if `encode_url` on `u`
succeeds with short URL `m` (either the stored code or a freshly inserted one),
then `decode_url` on `m` against the post-encode store returns `u`. -/
theorem c1_round_trip (u : String) (db : DirState) (m : ShortURLModel)
    (hwf : WF db) (henc : (encode_url ⟨u⟩ db).1 = .ok m) :
    (decode_url m (encode_url ⟨u⟩ db).2).1 = .ok ⟨u⟩ := by
  rcases hfind : db.rows.find? (fun r => r.original_url == u) with _ | e
  · -- miss: a fresh row was inserted
    rcases hins : insertRow db u (generate_short_url u) with e | db2
    · rw [encode_url, encode_url_race_miss_err _ _ _ _ hfind hins] at henc
      cases henc
    · have hrun := encode_url_race_miss_ok ⟨u⟩ db db db2 hfind hins
      rw [encode_url, hrun] at henc ⊢
      obtain rfl : (⟨short_est ++ generate_short_url u⟩ : ShortURLModel) = m := by
        injection henc
      obtain ⟨-, hnocode, rfl⟩ := insertRow_ok db u (generate_short_url u) db2 hins
      have hgood := generate_short_url_good u
      have hnone : db.rows.find?
          (fun r => r.short_url == generate_short_url u) = none :=
        List.find?_eq_none.mpr (List.any_eq_false.mp hnocode)
      simp [decode_url, str_startswith_append,
        lastSlashSegment_append _ hgood.2, hnone]
  · -- hit: the stored record is returned unchanged
    have hrun := encode_url_race_hit ⟨u⟩ db db e hfind
    rw [encode_url, hrun] at henc ⊢
    obtain rfl : (⟨short_est ++ e.short_url⟩ : ShortURLModel) = m := by
      injection henc
    have hmem := List.mem_of_find?_eq_some hfind
    have hgood := hwf.1 e hmem
    have hkey : db.rows.find? (fun r => r.short_url == e.short_url) = some e :=
      find?_key_of_nodup URL.short_url db.rows e hwf.2.2 hmem
    have hp := List.find?_some hfind
    have hu : e.original_url = u := eq_of_beq hp
    simp [decode_url, str_startswith_append,
      lastSlashSegment_append _ hgood.2, hkey, hu]

/-- Witness for C1: a full encode-then-decode run from the empty store. -/
theorem c1_witness :
    WF dirEmpty ∧
    (encode_url ⟨"https://a.com"⟩ dirEmpty).1 =
      .ok ⟨short_est ++ generate_short_url "https://a.com"⟩ ∧
    (decode_url ⟨short_est ++ generate_short_url "https://a.com"⟩
      (encode_url ⟨"https://a.com"⟩ dirEmpty).2).1 = .ok ⟨"https://a.com"⟩ :=
  ⟨by decide, by decide,
    c1_round_trip "https://a.com" dirEmpty
      ⟨short_est ++ generate_short_url "https://a.com"⟩ (by decide) (by decide)⟩

/-- Claim C2: encode is idempotent over any well-formed store.  (i) When a
record for `u` exists, `encode_url` returns its stored short code unchanged —
whatever the generator would say — and leaves the store untouched.  (ii) After
any successful `encode_url` of `u`, re-encoding `u` returns the same short URL
and the same store, and the store holds exactly one record for `u`. -/
theorem c2_encode_idempotent (u : String) (db : DirState) (hwf : WF db) :
    (∀ r, db.rows.find? (fun r => r.original_url == u) = some r →
      encode_url ⟨u⟩ db = (.ok ⟨short_est ++ r.short_url⟩, db)) ∧
    (∀ m db₁, encode_url ⟨u⟩ db = (.ok m, db₁) →
      encode_url ⟨u⟩ db₁ = (.ok m, db₁) ∧
      (db₁.rows.filter (fun r => r.original_url == u)).length = 1) := by
  constructor
  · intro r hr
    exact encode_url_race_hit ⟨u⟩ db db r hr
  · intro m db₁ h
    rcases hfind : db.rows.find? (fun r => r.original_url == u) with _ | e
    · rcases hins : insertRow db u (generate_short_url u) with e | db2
      · rw [encode_url, encode_url_race_miss_err _ _ _ _ hfind hins] at h
        cases h
      · rw [encode_url, encode_url_race_miss_ok _ _ _ _ hfind hins] at h
        injection h with h1 h2
        injection h1 with h1
        subst h2
        subst h1
        obtain ⟨hnourl, -, rfl⟩ := insertRow_ok db u (generate_short_url u) db2 hins
        have happ : (db.rows ++
              [(⟨db.nextId, u, generate_short_url u⟩ : URL)]).find?
            (fun r => r.original_url == u) =
              some (⟨db.nextId, u, generate_short_url u⟩ : URL) := by
          rw [find?_append_of_none _ hfind]
          exact List.find?_cons_of_pos _ (beq_self_eq_true _)
        constructor
        · exact encode_url_race_hit ⟨u⟩
            ⟨db.rows ++ [⟨db.nextId, u, generate_short_url u⟩], db.nextId + 1⟩
            ⟨db.rows ++ [⟨db.nextId, u, generate_short_url u⟩], db.nextId + 1⟩
            ⟨db.nextId, u, generate_short_url u⟩ happ
        · rw [List.filter_append]
          have h1 : db.rows.filter (fun r => r.original_url == u) = [] :=
            List.filter_eq_nil_iff.mpr (List.find?_eq_none.mp hfind)
          rw [h1]
          simp
    · rw [encode_url, encode_url_race_hit ⟨u⟩ db db e hfind] at h
      injection h with h1 h2
      injection h1 with h1
      subst h2
      subst h1
      constructor
      · exact encode_url_race_hit ⟨u⟩ db db e hfind
      · have hmem := List.mem_of_find?_eq_some hfind
        have hp := List.find?_some hfind
        have hu : e.original_url = u := eq_of_beq hp
        have := filter_key_of_nodup URL.original_url db.rows e hwf.2.1 hmem
        rwa [hu] at this

/-- Witness for C2: two encodes of the same URL from the empty store. -/
theorem c2_witness :
    WF dirEmpty ∧
    encode_url ⟨"https://a.com"⟩ ((encode_url ⟨"https://a.com"⟩ dirEmpty).2) =
      (.ok ⟨short_est ++ generate_short_url "https://a.com"⟩,
        (encode_url ⟨"https://a.com"⟩ dirEmpty).2) ∧
    ((encode_url ⟨"https://a.com"⟩ dirEmpty).2.rows.filter
      (fun r => r.original_url == "https://a.com")).length = 1 := by
  have h := (c2_encode_idempotent "https://a.com" dirEmpty (by decide)).2
    ⟨short_est ++ generate_short_url "https://a.com"⟩
    ((encode_url ⟨"https://a.com"⟩ dirEmpty).2) (by decide)
  exact ⟨by decide, h.1, h.2⟩

/-- Claim C8, counterexample: the spec says a losing concurrent encode re-reads
the winning record and never surfaces the uniqueness violation.  In the
concrete race below the check observes the empty store while an identical
record `(https://a.com, its code)` has already been committed; the losing call
surfaces HTTP 500 and does not return the winning short URL. -/
theorem c8_race_counterexample :
    resultStatus (encode_url_race ⟨"https://a.com"⟩ dirEmpty
      ⟨[⟨1, "https://a.com", generate_short_url "https://a.com"⟩], 2⟩).1 =
        some 500 ∧
    (encode_url_race ⟨"https://a.com"⟩ dirEmpty
      ⟨[⟨1, "https://a.com", generate_short_url "https://a.com"⟩], 2⟩).1 ≠
      .ok ⟨short_est ++ generate_short_url "https://a.com"⟩ := by
  decide

/-- Claim C8, amended: when an `encode_url` insert loses a race to a concurrent
encode of the same `original_url` (its SELECT saw no record but the commit-time
store rejects the insert with the uniqueness violation), the losing call does
NOT re-read the winning record: the violation is caught by the blanket handler
and surfaced to the caller as HTTP 500, the store staying as committed by the
winner. -/
theorem c8_race_surfaces_500 (url : URLModel) (dbC dbW : DirState)
    (h1 : dbC.rows.find? (fun r => r.original_url == url.original_url) = none)
    (h2 : insertRow dbW url.original_url (generate_short_url url.original_url) =
      .error .uniqueViolation) :
    encode_url_race url dbC dbW =
      (.error ⟨500, dbErrStr .uniqueViolation⟩, dbW) :=
  encode_url_race_miss_err url dbC dbW .uniqueViolation h1 h2

/-- Witness for C8 at the concrete race of the counterexample. -/
theorem c8_witness :
    dirEmpty.rows.find?
      (fun r => r.original_url == (⟨"https://a.com"⟩ : URLModel).original_url) =
        none ∧
    insertRow ⟨[⟨1, "https://a.com", generate_short_url "https://a.com"⟩], 2⟩
        "https://a.com" (generate_short_url "https://a.com") =
      .error .uniqueViolation ∧
    encode_url_race ⟨"https://a.com"⟩ dirEmpty
        ⟨[⟨1, "https://a.com", generate_short_url "https://a.com"⟩], 2⟩ =
      (.error ⟨500, dbErrStr .uniqueViolation⟩,
        ⟨[⟨1, "https://a.com", generate_short_url "https://a.com"⟩], 2⟩) :=
  ⟨by decide, by decide,
    c8_race_surfaces_500 ⟨"https://a.com"⟩ dirEmpty
      ⟨[⟨1, "https://a.com", generate_short_url "https://a.com"⟩], 2⟩
      (by decide) (by decide)⟩

end Markant
